import Mathlib

/-!
Shallow embedding of the WiredTiger record-store layer
(`src/mongo/db/storage/wiredtiger/wiredtiger_record_store.cpp`) and proofs of
the specification claims about it.

Conventions of the embedding:
* `RecordId` is an `Int` (the C++ `repr()` value, an `int64_t`); the null
  `RecordId()` is `0` and a normal id is positive.
* A record payload is a `List Nat` of bytes; its `size` is the list length.
* C++ signed 64-bit division truncates toward zero, which is `Int.tdiv`.
* Fatal `invariant(...)` assertions are modelled with `Option`/error results:
  a `none`/error outcome corresponds to a process abort, so theorems about
  successful results describe exactly the executions that complete.
* Lock acquisitions and other scheduler-dependent outcomes are explicit
  `Bool` inputs (an oracle for the interleaving), everything else is the
  single-threaded semantics of the source.
-/

namespace WT

/-- Final value of `_numRecords` after `WiredTigerRecordStore::_changeNumRecords`:
`fetchAndAdd(diff)` returns the old value and stores `cur + diff`; if the old
value was negative the code then stores `max(diff, 0)`. -/
def changeNumRecords (cur diff : Int) : Int :=
  if cur < 0 then max diff 0 else cur + diff

/-- Final value of `_dataSize` after `WiredTigerRecordStore::_increaseDataSize`
(ignoring the best-effort size-storer write-back, which does not change the
counter): same old-value-clamping shape as `_changeNumRecords`. -/
def increaseDataSize (cur amount : Int) : Int :=
  if cur < 0 then max amount 0 else cur + amount

/-- `WiredTigerRecordStore::OplogStones::Stone`: a closed oplog segment
boundary `{records, bytes, lastRecord}`. -/
structure Stone where
  records : Int
  bytes : Int
  lastRecord : Int
deriving DecidableEq, Repr

/-! ## Retention marker ("stone") parameters (claim C7) -/

/-- `kMinStonesToKeep` from `OplogStones::OplogStones` / `OplogStones::adjust`. -/
def kMinStonesToKeep : Nat := 10

/-- `kMaxStonesToKeep` from `OplogStones::OplogStones` / `OplogStones::adjust`. -/
def kMaxStonesToKeep : Nat := 100

/-- The pair `(numStonesToKeep, _minBytesPerStone)` computed, identically, by
the `OplogStones` constructor and by `OplogStones::adjust`.  `maxSize` is the
capped max size as `unsigned long long`; `bsonObjMaxInternalSize` is the
externally defined constant `BSONObjMaxInternalSize` (kept as a parameter,
it is declared outside this translation unit). -/
structure OplogStonesParams where
  numStonesToKeep : Nat
  minBytesPerStone : Nat
deriving DecidableEq, Repr

/-- Shared computation of `OplogStones::OplogStones` (lines 154-156) and
`OplogStones::adjust` (lines 435-437). -/
def oplogStonesParamsCalc (bsonObjMaxInternalSize maxSize : Nat) : OplogStonesParams :=
  let numStones := maxSize / bsonObjMaxInternalSize
  let numStonesToKeep := min kMaxStonesToKeep (max kMinStonesToKeep numStones)
  { numStonesToKeep := numStonesToKeep, minBytesPerStone := maxSize / numStonesToKeep }

/-- `OplogStones::OplogStones` construction of the sizing parameters.
`none` models a fired fatal assertion: the constructor asserts
`rs->cappedMaxSize() > 0` and `_minBytesPerStone > 0`. -/
def oplogStonesCtorParams (bsonObjMaxInternalSize maxSize : Nat) :
    Option OplogStonesParams :=
  if maxSize = 0 then none
  else
    let p := oplogStonesParamsCalc bsonObjMaxInternalSize maxSize
    if p.minBytesPerStone = 0 then none
    else some p

/-- `OplogStones::adjust`: recomputes `_minBytesPerStone` from a new max size;
`none` models the fired `invariant(_minBytesPerStone > 0)`. -/
def oplogStonesAdjust (bsonObjMaxInternalSize maxSize : Nat) : Option Nat :=
  let p := oplogStonesParamsCalc bsonObjMaxInternalSize maxSize
  if p.minBytesPerStone = 0 then none
  else some p.minBytesPerStone

/-! ## Oplog reclamation (claim C1) -/

/-- The state touched by one iteration of `WiredTigerRecordStore::reclaimOplog`:
the marker deque of the oplog stones, the store's aggregate counters, and the
remembered oldest-surviving pointer `OplogStones::firstRecord`. -/
structure ReclaimState where
  stones : List Stone
  numRecords : Int
  dataSize : Int
  firstRecord : Int
deriving DecidableEq, Repr

/-- One successful iteration of the loop in `reclaimOplog` (lines 1087-1108):
the range `[firstRecord, stone.lastRecord]` is truncated as its own
transaction, the counters are decremented through `_changeNumRecords` /
`_increaseDataSize`, the stone is popped (`popOldestStone` removes the deque
front) and `firstRecord` is advanced to the stone's last record.  With an
empty deque `peekOldestStoneIfNeeded` yields nothing and no step happens. -/
def reclaimOplogStep (s : ReclaimState) : ReclaimState :=
  match s.stones with
  | [] => s
  | stone :: rest =>
    { stones := rest
      numRecords := changeNumRecords s.numRecords (-stone.records)
      dataSize := increaseDataSize s.dataSize (-stone.bytes)
      firstRecord := stone.lastRecord }

/-! ## Steady-state marker creation (claim C6) -/

/-- The in-memory state of `WiredTigerRecordStore::OplogStones` relevant to
insert-commit processing. -/
structure OplogStonesState where
  stones : List Stone
  currentRecords : Int
  currentBytes : Int
  minBytesPerStone : Int
deriving DecidableEq, Repr

/-- `OplogStones::createNewStoneIfNeeded` (lines 207-232).  `lockOk` is the
outcome of the non-blocking `try_to_lock`; a losing racer returns without
creating a marker.  After the re-check of `_currentBytes` and of the marker
ordering, the open segment is swapped to zero and closed into a new marker
whose last record is `lastRecord`. -/
def createNewStoneIfNeeded (st : OplogStonesState) (lockOk : Bool)
    (lastRecord : Int) : OplogStonesState :=
  if !lockOk then st
  else if st.currentBytes < st.minBytesPerStone then st
  else
    match st.stones.getLast? with
    | some back =>
      if lastRecord < back.lastRecord then st
      else
        { st with
          stones := st.stones ++ [⟨st.currentRecords, st.currentBytes, lastRecord⟩]
          currentRecords := 0
          currentBytes := 0 }
    | none =>
      { st with
        stones := st.stones ++ [⟨st.currentRecords, st.currentBytes, lastRecord⟩]
        currentRecords := 0
        currentBytes := 0 }

/-- `OplogStones::InsertChange::commit` (lines 105-114), the commit-time hook
registered by `updateCurrentStoneAfterInsertOnCommit` for a committed insert
batch: add the batch's record/byte counts to the open segment, and close a new
marker if the open byte total reached `_minBytesPerStone`. -/
def insertChangeCommit (st : OplogStonesState) (bytesInserted : Int)
    (highestInserted : Int) (countInserted : Int) (lockOk : Bool) :
    OplogStonesState :=
  if st.minBytesPerStone ≤ st.currentBytes + bytesInserted then
    createNewStoneIfNeeded
      { st with
        currentRecords := st.currentRecords + countInserted
        currentBytes := st.currentBytes + bytesInserted }
      lockOk highestInserted
  else
    { st with
      currentRecords := st.currentRecords + countInserted
      currentBytes := st.currentBytes + bytesInserted }

/-! ## Sampling-based marker placement (claim C8) -/

/-- The outcome of `OplogStones::_calculateStonesBySampling`: the initial
marker list plus the open-segment totals for the partially filled chunk. -/
structure SamplingResult where
  stones : List Stone
  currentRecords : Int
  currentBytes : Int
deriving DecidableEq, Repr

/-- `OplogStones::_calculateStonesBySampling` (lines 341-422).
`kRandomSamplesPerStone` is the class constant (declared in the header, kept
as a parameter); `numRecords`/`dataSize` are the store counters;
`estRecordsPerStone`/`estBytesPerStone` are the estimates computed by
`_calculateStones`; `samples` is the stream of ids produced by the random
cursor.  The source draws exactly `numSamples` samples; if the cursor runs
dry it falls back to scanning, modelled as `none` (as are the empty-collection
fallbacks, which also occur only when fewer samples than requested exist).
Otherwise it sorts the samples by record id and closes, for each whole stone
`i` in `1..wholeStones`, a marker whose last record is the sorted sample at
index `kRandomSamplesPerStone * i - 1`, carrying the estimated counts; the
remainder is stored as the open segment's totals. -/
def calculateStonesBySampling (kRandomSamplesPerStone : Nat)
    (numRecords dataSize estRecordsPerStone estBytesPerStone : Int)
    (samples : List Int) : Option SamplingResult :=
  let wholeStones := Int.tdiv numRecords estRecordsPerStone
  let numSamples :=
    Int.tdiv ((kRandomSamplesPerStone : Int) * numRecords) estRecordsPerStone
  if (samples.length : Int) < numSamples then none
  else
    let sorted := List.insertionSort (· ≤ ·) (samples.take numSamples.toNat)
    some
      { stones := (List.range wholeStones.toNat).map (fun j =>
          { records := estRecordsPerStone, bytes := estBytesPerStone,
            lastRecord := sorted.getD (kRandomSamplesPerStone * (j + 1) - 1) 0 })
        currentRecords := numRecords - estRecordsPerStone * wholeStones
        currentBytes := dataSize - estBytesPerStone * wholeStones }

/-! ## Record store core (claims C2, C3, C4, C5, C10) -/

/-- Errors surfaced by the record-store operations modelled here.
`invariantFailed` stands for a fired fatal assertion (`invariant` /
`invariantWTOK`), which aborts the process. -/
inductive WtErr
  | badValue
  | illegalOperation
  | invariantFailed
deriving DecidableEq, Repr

/-- The `WiredTigerRecordStore` state visible to the modelled operations.
`records` is the underlying ordered table, a list of `(id, payload)` pairs
sorted by id.  `hasOplogStones` is the presence of `_oplogStones` (the oplog
retention-marker engine); `cappedFirstRecord` is the remembered oldest
surviving record id (`0` is the null `RecordId`). -/
structure WtStore where
  isCapped : Bool
  isOplog : Bool
  hasOplogStones : Bool
  cappedMaxSize : Int
  cappedMaxSizeSlack : Int
  cappedMaxDocs : Int
  nextIdNum : Int
  numRecords : Int
  dataSize : Int
  records : List (Int × List Nat)
  cappedFirstRecord : Int
deriving DecidableEq, Repr

/-- The slack initialisation in the `WiredTigerRecordStore` constructor
(line 626): `std::min(params.cappedMaxSize / 10, int64_t(16 * 1024 * 1024))`. -/
def cappedMaxSizeSlackOf (cappedMaxSize : Int) : Int :=
  min (Int.tdiv cappedMaxSize 10) (16 * 1024 * 1024)

/-- `WiredTigerRecordStore::postConstructorInit` for an empty table
(lines 718-724): zero counters and the id counter started at `1` so ids are
always above the minimum record id. -/
def postConstructorInitEmpty (s : WtStore) : WtStore :=
  { s with dataSize := 0, numRecords := 0, nextIdNum := 1 }

/-- `WiredTigerRecordStore::cappedAndNeedDelete` (lines 859-870). -/
def cappedAndNeedDelete (s : WtStore) : Bool :=
  if !s.isCapped then false
  else if s.cappedMaxSize ≤ s.dataSize then true
  else if s.cappedMaxDocs ≠ -1 ∧ s.cappedMaxDocs < s.numRecords then true
  else false

/-- Total byte size of a list of records. -/
def totalSize (recs : List (Int × List Nat)) : Int :=
  (recs.map (fun r => (r.2.length : Int))).sum

/-- `sizeOverCap` as computed at the top of `cappedDeleteAsNeeded_inlock`
(line 932). -/
def sizeOverCapOf (s : WtStore) : Int :=
  if s.cappedMaxSize < s.dataSize then s.dataSize - s.cappedMaxSize else 0

/-- `docsOverCap` as computed at the top of `cappedDeleteAsNeeded_inlock`
(lines 934-936). -/
def docsOverCapOf (s : WtStore) : Int :=
  if s.cappedMaxDocs ≠ -1 ∧ s.cappedMaxDocs < s.numRecords then
    s.numRecords - s.cappedMaxDocs
  else 0

/-- The `truncateEnd` advancing loop of `cappedDeleteAsNeeded_inlock`
(lines 959-984): starting from the positioned record, keep accumulating
records while the loop condition
`(sizeSaved < sizeOverCap || docsRemoved < docsOverCap) && docsRemoved < 20000`
holds and a next record exists, breaking before a record whose id is at or
past the one just inserted.  Returns the list of accumulated (to-be-removed)
records.  The shutdown break and the capped-deletion callback are concurrency
hooks with no effect on this accounting. -/
def cappedWalk (justInserted sizeOverCap docsOverCap : Int) :
    List (Int × List Nat) → Int → Int → List (Int × List Nat)
  | [], _, _ => []
  | r :: rest, docsRemoved, sizeSaved =>
    if (sizeSaved < sizeOverCap ∨ docsRemoved < docsOverCap) ∧ docsRemoved < 20000 then
      if justInserted ≤ r.1 then []
      else r :: cappedWalk justInserted sizeOverCap docsOverCap rest
        (docsRemoved + 1) (sizeSaved + (r.2.length : Int))
    else []

/-- The cursor positioning prologue of `cappedDeleteAsNeeded_inlock`
(lines 949-956): if `_cappedFirstRecord` is set and its key is found, the walk
starts there; otherwise the first `next()` of the unpositioned cursor lands on
the first record of the table. -/
def cappedStartList (recs : List (Int × List Nat)) (first : Int) :
    List (Int × List Nat) :=
  if first ≠ 0 ∧ recs.any (fun r => r.1 = first) then
    recs.dropWhile (fun r => r.1 ≠ first)
  else recs

/-- The records accumulated for removal by one run of the walk inside
`cappedDeleteAsNeeded_inlock`. -/
def cappedDeleteRemoved (s : WtStore) (justInserted : Int) :
    List (Int × List Nat) :=
  cappedWalk justInserted (sizeOverCapOf s) (docsOverCapOf s)
    (cappedStartList s.records s.cappedFirstRecord) 0 0

/-- `WiredTigerRecordStore::cappedDeleteAsNeeded_inlock` (lines 917-1043),
successful-truncation case: the accumulated range is removed with one
range-truncate, the counters are decremented through `_changeNumRecords` /
`_increaseDataSize`, and `_cappedFirstRecord` becomes the first remaining key
after the truncated range (null when the table was emptied).  Returns the
number of documents removed. -/
def cappedDeleteAsNeeded_inlock (s : WtStore) (justInserted : Int) :
    Int × WtStore :=
  let startList := cappedStartList s.records s.cappedFirstRecord
  let removed := cappedDeleteRemoved s justInserted
  if removed.length = 0 then (0, s)
  else
    let remaining := startList.drop removed.length
    ((removed.length : Int),
     { s with
       records := s.records.take (s.records.length - startList.length) ++ remaining
       numRecords := changeNumRecords s.numRecords (-(removed.length : Int))
       dataSize := increaseDataSize s.dataSize (-(totalSize removed))
       cappedFirstRecord :=
         match remaining.head? with
         | some r => r.1
         | none => 0 })

/-- The result of `WiredTigerRecordStore::cappedDeleteAsNeeded`: the returned
document count, the resulting store, and the bound (in milliseconds) of the
timed lock wait the call performed — `0` when no timed wait ran, `200` for the
`try_lock_for(stdx::chrono::milliseconds(200))` path. -/
structure CappedDeleteOutcome where
  docsRemoved : Int
  store : WtStore
  waitBoundMs : Nat
deriving DecidableEq, Repr

/-- `WiredTigerRecordStore::cappedDeleteAsNeeded` (lines 873-914).
`tryLockOk` is the outcome of the non-blocking `try_lock`; `timedLockOk` the
outcome of the 200ms `try_lock_for`; `dataSizeAfterWait` is the value the
re-read of `_dataSize` after the wait observes (it may differ from the entry
value under concurrent deleters).  When a doc limit is configured the lock is
taken with a blocking `lock()`, which always succeeds. -/
def cappedDeleteAsNeeded (s : WtStore) (justInserted : Int)
    (tryLockOk timedLockOk : Bool) (dataSizeAfterWait : Int) :
    CappedDeleteOutcome :=
  if !cappedAndNeedDelete s then ⟨0, s, 0⟩
  else if s.cappedMaxDocs ≠ -1 then
    ⟨(cappedDeleteAsNeeded_inlock s justInserted).1,
     (cappedDeleteAsNeeded_inlock s justInserted).2, 0⟩
  else if tryLockOk then
    ⟨(cappedDeleteAsNeeded_inlock s justInserted).1,
     (cappedDeleteAsNeeded_inlock s justInserted).2, 0⟩
  else if s.dataSize - s.cappedMaxSize < s.cappedMaxSizeSlack then ⟨0, s, 0⟩
  else if !timedLockOk then ⟨0, s, 200⟩
  else if dataSizeAfterWait - s.cappedMaxSize < 2 * s.cappedMaxSizeSlack then
    ⟨0, s, 200⟩
  else
    ⟨(cappedDeleteAsNeeded_inlock s justInserted).1,
     (cappedDeleteAsNeeded_inlock s justInserted).2, 200⟩

/-- `WiredTigerRecordStore::updateRecord` (lines 1347-1382): positions on the
record (a missing record fires `invariantWTOK`), rejects a length change on a
store with oplog stones with `ErrorCodes::IllegalOperation` before writing
anything, otherwise overwrites the value, adjusts `_dataSize` by the length
difference, and (for stores without oplog stones) triggers
`cappedDeleteAsNeeded`.  Error outcomes leave the store untouched. -/
def updateRecord (s : WtStore) (id : Int) (data : List Nat)
    (tryLockOk timedLockOk : Bool) (dataSizeAfterWait : Int) :
    WtStore × Option WtErr :=
  match s.records.find? (fun r => r.1 = id) with
  | none => (s, some .invariantFailed)
  | some old =>
    if s.hasOplogStones ∧ (data.length : Int) ≠ (old.2.length : Int) then
      (s, some .illegalOperation)
    else
      let s1 := { s with
        records := s.records.map (fun q => if q.1 = id then (q.1, data) else q)
        dataSize :=
          increaseDataSize s.dataSize ((data.length : Int) - (old.2.length : Int)) }
      if s.hasOplogStones then (s1, none)
      else
        ((cappedDeleteAsNeeded s1 id tryLockOk timedLockOk dataSizeAfterWait).store,
         none)

/-- The id-assignment loop of `WiredTigerRecordStore::_insertRecords`
(lines 1211-1227): the oplog extracts each id from the payload's embedded
timestamp via `oploghack::extractKey` (an external collaborator, passed in as
`extractOplogKey`; a failed extraction aborts the batch), every other store —
capped or not — draws `_nextId()`, the post-increment of `_nextIdNum`.
Returns the assigned ids and the new value of the counter. -/
def assignRecordIds (extractOplogKey : List Nat → Option Int) (isOplog : Bool) :
    Int → List (List Nat) → Option (List Int × Int)
  | nextId, [] => some ([], nextId)
  | nextId, d :: rest =>
    if isOplog then
      match extractOplogKey d with
      | none => none
      | some id =>
        match assignRecordIds extractOplogKey isOplog nextId rest with
        | none => none
        | some (ids, n') => some (id :: ids, n')
    else
      match assignRecordIds extractOplogKey isOplog (nextId + 1) rest with
      | none => none
      | some (ids, n') => some (nextId :: ids, n')

/-- One `WT_CURSOR::insert` into the ordered table: place the record at its
key position (overwriting an equal key). -/
def tableInsert : List (Int × List Nat) → Int → List Nat → List (Int × List Nat)
  | [], id, data => [(id, data)]
  | r :: rest, id, data =>
    if id < r.1 then (id, data) :: r :: rest
    else if id = r.1 then (id, data) :: rest
    else r :: tableInsert rest id data

/-- `WiredTigerRecordStore::_insertRecords` (lines 1186-1277): reject a batch
longer than the capped max size with `ErrorCodes::BadValue` before assigning
any id or writing anything; otherwise assign ids, write every record through
the cursor, update the aggregate counters, and either leave the oplog-stones
commit hook to run at commit time (stores with oplog stones, see
`insertChangeCommit`) or trigger `cappedDeleteAsNeeded` with the highest
inserted id. -/
def insertRecords (extractOplogKey : List Nat → Option Int) (s : WtStore)
    (datas : List (List Nat)) (tryLockOk timedLockOk : Bool)
    (dataSizeAfterWait : Int) : WtStore × Except WtErr (List Int) :=
  let totalLength : Int := (datas.map (fun d => (d.length : Int))).sum
  if s.isCapped ∧ s.cappedMaxSize < totalLength then (s, .error .badValue)
  else
    match assignRecordIds extractOplogKey s.isOplog s.nextIdNum datas with
    | none => (s, .error .badValue)
    | some (ids, nextId') =>
      let highestId := (ids.getLast?).getD 0
      let s1 := { s with
        nextIdNum := nextId'
        records := (ids.zip datas).foldl (fun t rd => tableInsert t rd.1 rd.2) s.records
        numRecords := changeNumRecords s.numRecords (datas.length : Int)
        dataSize := increaseDataSize s.dataSize totalLength }
      if s.hasOplogStones then (s1, .ok ids)
      else
        ((cappedDeleteAsNeeded s1 highestId tryLockOk timedLockOk
            dataSizeAfterWait).store,
         .ok ids)

/-- A logical insert attempt at the operation-sequence level: either the whole
batch commits, or the attempt aborts after consuming `idsConsumed` values of
the id counter.  `_nextIdNum` is never rolled back; the registered
`NumRecordsChange`/`DataSizeChange` compensating actions restore the aggregate
counters on rollback and the engine transaction discards the written
records. -/
inductive InsOp
  | committed (datas : List (List Nat))
  | aborted (idsConsumed : Nat)

/-- Run one insert attempt against the store. -/
def runInsOp (extractOplogKey : List Nat → Option Int)
    (tryLockOk timedLockOk : Bool) (dataSizeAfterWait : Int) (s : WtStore) :
    InsOp → WtStore × List Int
  | .committed datas =>
    ((insertRecords extractOplogKey s datas tryLockOk timedLockOk
        dataSizeAfterWait).1,
     match (insertRecords extractOplogKey s datas tryLockOk timedLockOk
        dataSizeAfterWait).2 with
     | .ok ids => ids
     | .error _ => [])
  | .aborted n => ({ s with nextIdNum := s.nextIdNum + (n : Int) }, [])

/-- Run a sequence of insert attempts, collecting the ids assigned to the
committed ones in order. -/
def runInsOps (extractOplogKey : List Nat → Option Int)
    (tryLockOk timedLockOk : Bool) (dataSizeAfterWait : Int) :
    WtStore → List InsOp → WtStore × List Int
  | s, [] => (s, [])
  | s, op :: ops =>
    ((runInsOps extractOplogKey tryLockOk timedLockOk dataSizeAfterWait
        (runInsOp extractOplogKey tryLockOk timedLockOk dataSizeAfterWait s op).1
        ops).1,
     (runInsOp extractOplogKey tryLockOk timedLockOk dataSizeAfterWait s op).2 ++
     (runInsOps extractOplogKey tryLockOk timedLockOk dataSizeAfterWait
        (runInsOp extractOplogKey tryLockOk timedLockOk dataSizeAfterWait s op).1
        ops).2)

/-- The empty ordinary (non-capped, non-log) store right after
`postConstructorInit` found an empty table. -/
def emptyOrdinaryStore : WtStore :=
  postConstructorInitEmpty
    ⟨false, false, false, -1, cappedMaxSizeSlackOf (-1), -1, 0, 0, 0, [], 0⟩

/-! ## Cursor save/restore (claim C9) -/

/-- The cursor state of `WiredTigerRecordStoreCursorBase`: traversal
direction, last returned id (`0` is the null id), end-of-data flag, the
skip-next-advance flag, and the underlying engine cursor position (`none` is
unpositioned). -/
structure WtCursor where
  forward : Bool
  lastReturnedId : Int
  eof : Bool
  skipNextAdvance : Bool
  pos : Option Int
deriving DecidableEq, Repr

/-- The smallest table key strictly greater than `p`: the engine cursor's
`next` from a position, the table being the sorted id list `ids`. -/
def firstGreater (ids : List Int) (p : Int) : Option Int :=
  (ids.filter (fun x => p < x)).head?

/-- The largest table key strictly smaller than `p`: the engine cursor's
`prev` from a position. -/
def lastSmaller (ids : List Int) (p : Int) : Option Int :=
  (ids.filter (fun x => x < p)).getLast?

/-- `WT_CURSOR::search_near`: lands on the key itself when present, otherwise
on a neighbouring key; the engine may pick either side, so the preferred side
is an oracle input (`preferLarger`, with fallback to the other side); `none`
when the table is empty. -/
def searchNear (ids : List Int) (key : Int) (preferLarger : Bool) :
    Option Int :=
  if key ∈ ids then some key
  else if preferLarger then
    match firstGreater ids key with
    | some x => some x
    | none => lastSmaller ids key
  else
    match lastSmaller ids key with
    | some x => some x
    | none => firstGreater ids key

/-- `WiredTigerRecordStoreCursorBase::restore` (lines 1870-1927) for a
standard (non-prefixed) cursor, whose `hasWrongPrefix` is always false:
reset `_skipNextAdvance`; keep an exhausted cursor exhausted (success) and a
never-positioned cursor at the beginning (success); otherwise `search_near`
the last returned id.  `WT_NOTFOUND` exhausts the cursor and reports
`!_rs._isCapped`; landing exactly is a plain success; landing elsewhere on a
capped store exhausts the cursor and reports failure; landing ahead in
traversal order on an ordinary store sets `_skipNextAdvance` so the landed
record is the next one returned.  Returns the new cursor state and the
boolean result. -/
def cursorRestore (ids : List Int) (isCapped preferLarger : Bool)
    (c : WtCursor) : WtCursor × Bool :=
  if c.eof then ({ c with skipNextAdvance := false }, true)
  else if c.lastReturnedId = 0 then
    ({ c with skipNextAdvance := false, pos := none }, true)
  else
    match searchNear ids c.lastReturnedId preferLarger with
    | none => ({ c with skipNextAdvance := false, eof := true, pos := none },
        !isCapped)
    | some landed =>
      if landed = c.lastReturnedId then
        ({ c with skipNextAdvance := false, pos := some landed }, true)
      else if isCapped then
        ({ c with skipNextAdvance := false, pos := some landed, eof := true },
         false)
      else if c.forward ∧ c.lastReturnedId < landed then
        ({ c with skipNextAdvance := true, pos := some landed }, true)
      else if ¬c.forward ∧ landed < c.lastReturnedId then
        ({ c with skipNextAdvance := true, pos := some landed }, true)
      else ({ c with skipNextAdvance := false, pos := some landed }, true)

/-- `WiredTigerRecordStoreCursorBase::next` (lines 1788-1830) for a standard
cursor: an exhausted cursor stays exhausted; with `_skipNextAdvance` set the
positioned record itself is returned; otherwise the engine cursor advances in
the traversal direction (from the table boundary when unpositioned) and
`WT_NOTFOUND` exhausts the cursor. -/
def cursorNext (ids : List Int) (c : WtCursor) : Option Int × WtCursor :=
  if c.eof then (none, c)
  else
    match
      (if c.skipNextAdvance then c.pos
       else
        match c.pos with
        | none => if c.forward then ids.head? else ids.getLast?
        | some p => if c.forward then firstGreater ids p else lastSmaller ids p)
    with
    | none => (none, { c with eof := true })
    | some id =>
      (some id,
       { c with pos := some id, lastReturnedId := id,
                skipNextAdvance := false })

/-! ## Claim theorems C1, C6, C7 -/

/-- Claim C1: reclaiming the oldest retention marker via `reclaimOplog`, when
its range truncation succeeds, decreases `numRecords()` by exactly the
marker's record count and `dataSize()` by exactly the marker's byte count,
removes that marker from the marker set (so, the markers being strictly
ordered by last record id, the same marker is never reclaimed a second time),
and advances the remembered oldest-surviving pointer `firstRecord` to that
marker's last record id. -/
theorem claim_C1_reclaim_oplog (s : ReclaimState) (stone : Stone)
    (rest : List Stone) (hstones : s.stones = stone :: rest)
    (hpw : s.stones.Pairwise (fun a b => a.lastRecord < b.lastRecord))
    (hnr : 0 ≤ s.numRecords) (hds : 0 ≤ s.dataSize) :
    (reclaimOplogStep s).numRecords = s.numRecords - stone.records ∧
    (reclaimOplogStep s).dataSize = s.dataSize - stone.bytes ∧
    (reclaimOplogStep s).stones = rest ∧
    stone ∉ (reclaimOplogStep s).stones ∧
    (reclaimOplogStep s).firstRecord = stone.lastRecord := by
  obtain ⟨stones, numRecords, dataSize, firstRecord⟩ := s
  simp only at hstones hpw hnr hds
  subst hstones
  simp only [List.pairwise_cons] at hpw
  refine ⟨?_, ?_, rfl, ?_, rfl⟩
  · simp only [reclaimOplogStep, changeNumRecords]
    rw [if_neg (by omega)]; omega
  · simp only [reclaimOplogStep, increaseDataSize]
    rw [if_neg (by omega)]; omega
  · intro hmem
    exact absurd (hpw.1 stone hmem) (lt_irrefl _)

/-- Witness for claim C1 at a concrete state. -/
theorem claim_C1_witness :
    (reclaimOplogStep ⟨[⟨3, 100, 7⟩, ⟨2, 50, 9⟩], 5, 150, 1⟩).numRecords = 5 - 3 ∧
    (reclaimOplogStep ⟨[⟨3, 100, 7⟩, ⟨2, 50, 9⟩], 5, 150, 1⟩).dataSize = 150 - 100 ∧
    (reclaimOplogStep ⟨[⟨3, 100, 7⟩, ⟨2, 50, 9⟩], 5, 150, 1⟩).stones = [⟨2, 50, 9⟩] ∧
    (⟨3, 100, 7⟩ : Stone) ∉ (reclaimOplogStep ⟨[⟨3, 100, 7⟩, ⟨2, 50, 9⟩], 5, 150, 1⟩).stones ∧
    (reclaimOplogStep ⟨[⟨3, 100, 7⟩, ⟨2, 50, 9⟩], 5, 150, 1⟩).firstRecord = 7 :=
  claim_C1_reclaim_oplog ⟨[⟨3, 100, 7⟩, ⟨2, 50, 9⟩], 5, 150, 1⟩ ⟨3, 100, 7⟩
    [⟨2, 50, 9⟩] rfl (by decide) (by decide) (by decide)

/-- Claim C6: for a committed insert batch into the log store, the open
segment's record and byte totals grow by the batch's counts; and whenever the
grown byte total reaches `minBytesPerStone` (with the creation lock acquired
and the batch's highest id not preceding the newest marker), the open segment
is closed into a new marker holding exactly the grown totals, with the batch's
highest inserted id as its last record, leaving the open byte total strictly
below the threshold again.  Thus the open segment's byte total never ends a
commit at or above the threshold without having been closed into a marker. -/
theorem claim_C6_insert_commit (st : OplogStonesState) (bytesInserted highestInserted countInserted : Int)
    (hmin : 0 < st.minBytesPerStone)
    (_hbytes : 0 ≤ bytesInserted)
    (horder : ∀ back ∈ st.stones.getLast?, back.lastRecord ≤ highestInserted) :
    (st.minBytesPerStone ≤ st.currentBytes + bytesInserted →
      insertChangeCommit st bytesInserted highestInserted countInserted true =
        { st with
          stones := st.stones ++
            [⟨st.currentRecords + countInserted, st.currentBytes + bytesInserted,
              highestInserted⟩]
          currentRecords := 0
          currentBytes := 0 } ∧
      (insertChangeCommit st bytesInserted highestInserted countInserted true).currentBytes <
        st.minBytesPerStone) ∧
    (st.currentBytes + bytesInserted < st.minBytesPerStone →
      insertChangeCommit st bytesInserted highestInserted countInserted true =
        { st with
          currentRecords := st.currentRecords + countInserted
          currentBytes := st.currentBytes + bytesInserted } ∧
      (insertChangeCommit st bytesInserted highestInserted countInserted true).currentBytes <
        st.minBytesPerStone) := by
  constructor
  · intro hreach
    have hclose :
        insertChangeCommit st bytesInserted highestInserted countInserted true =
          { st with
            stones := st.stones ++
              [⟨st.currentRecords + countInserted, st.currentBytes + bytesInserted,
                highestInserted⟩]
            currentRecords := 0
            currentBytes := 0 } := by
      rw [insertChangeCommit, if_pos hreach, createNewStoneIfNeeded]
      rw [if_neg (by simp)]
      rw [if_neg (by simp only; omega)]
      cases hlast : st.stones.getLast? with
      | none => simp only [hlast]
      | some back =>
        have hb := horder back (by simp [hlast])
        simp only [hlast]
        rw [if_neg (not_lt.mpr hb)]
    refine ⟨hclose, ?_⟩
    rw [hclose]
    simpa using hmin
  · intro hbelow
    have hskip :
        insertChangeCommit st bytesInserted highestInserted countInserted true =
          { st with
            currentRecords := st.currentRecords + countInserted
            currentBytes := st.currentBytes + bytesInserted } := by
      rw [insertChangeCommit, if_neg (by omega)]
    refine ⟨hskip, ?_⟩
    rw [hskip]
    simpa using hbelow

/-- Witness for claim C6 at a concrete state (a batch that closes a marker). -/
theorem claim_C6_witness :
    ((10 : Int) ≤ 600 + 450 →
      insertChangeCommit ⟨[⟨5, 600, 4⟩], 3, 600, 10⟩ 450 9 4 true =
        { stones := [⟨5, 600, 4⟩, ⟨3 + 4, 600 + 450, 9⟩], currentRecords := 0,
          currentBytes := 0, minBytesPerStone := 10 } ∧
      (insertChangeCommit ⟨[⟨5, 600, 4⟩], 3, 600, 10⟩ 450 9 4 true).currentBytes < 10) ∧
    ((600 : Int) + 450 < 10 →
      insertChangeCommit ⟨[⟨5, 600, 4⟩], 3, 600, 10⟩ 450 9 4 true =
        { stones := [⟨5, 600, 4⟩], currentRecords := 3 + 4,
          currentBytes := 600 + 450, minBytesPerStone := 10 } ∧
      (insertChangeCommit ⟨[⟨5, 600, 4⟩], 3, 600, 10⟩ 450 9 4 true).currentBytes < 10) :=
  claim_C6_insert_commit ⟨[⟨5, 600, 4⟩], 3, 600, 10⟩ 450 9 4 (by decide) (by decide)
    (by decide)

/-- Claim C7: at marker-engine construction and on every reconfiguration of
the maximum size, the target marker count equals `maxSize` divided by the
typical maximum document size (`BSONObjMaxInternalSize`), clamped to the
closed range `[10, 100]`; `minBytesPerStone` is set to `maxSize` divided by
that clamped count; and in every completed construction/reconfiguration (the
code asserts this fatally) it is strictly positive. -/
theorem claim_C7_stone_params (bsonObjMaxInternalSize : Nat) :
    (∀ maxSize p, oplogStonesCtorParams bsonObjMaxInternalSize maxSize = some p →
      p.numStonesToKeep = min 100 (max 10 (maxSize / bsonObjMaxInternalSize)) ∧
      p.minBytesPerStone = maxSize / p.numStonesToKeep ∧
      0 < p.minBytesPerStone) ∧
    (∀ maxSize b, oplogStonesAdjust bsonObjMaxInternalSize maxSize = some b →
      b = maxSize / min 100 (max 10 (maxSize / bsonObjMaxInternalSize)) ∧
      0 < b) := by
  constructor
  · intro maxSize p hp
    simp only [oplogStonesCtorParams] at hp
    by_cases h0 : maxSize = 0
    · simp [h0] at hp
    · rw [if_neg h0] at hp
      by_cases hz : (oplogStonesParamsCalc bsonObjMaxInternalSize maxSize).minBytesPerStone = 0
      · simp [hz] at hp
      · rw [if_neg hz] at hp
        cases hp
        exact ⟨rfl, rfl, Nat.pos_of_ne_zero hz⟩
  · intro maxSize b hb
    simp only [oplogStonesAdjust] at hb
    by_cases hz : (oplogStonesParamsCalc bsonObjMaxInternalSize maxSize).minBytesPerStone = 0
    · simp [hz] at hb
    · rw [if_neg hz] at hb
      cases hb
      exact ⟨rfl, Nat.pos_of_ne_zero hz⟩

/-- Multiplying before dividing loses nothing: `k * (n / e) ≤ (k * n) / e` for
nonnegative operands under the C++ truncating division. -/
theorem tdiv_mul_le_mul_tdiv (k n e : Int) (hk : 0 ≤ k) (hn : 0 ≤ n) (he : 0 < e) :
    k * Int.tdiv n e ≤ Int.tdiv (k * n) e := by
  rw [Int.tdiv_eq_ediv hn he.le, Int.tdiv_eq_ediv (by positivity) he.le,
    Int.le_ediv_iff_mul_le he]
  calc k * (n / e) * e = k * (n / e * e) := by ring
    _ ≤ k * n := mul_le_mul_of_nonneg_left (Int.ediv_mul_le n he.ne') hk

/-- Claim C8: when the marker engine bootstraps by sampling, it draws `k`
random samples per intended marker (`numSamples = kRandomSamplesPerStone *
numRecords / estRecordsPerStone`), sorts all drawn samples by record id, and
for each whole marker `i` from `1` to `numRecords / estRecordsPerStone`
selects the sorted sample at (0-based) index `k*i - 1` — every `k`-th sample —
as that marker's last record, assigning every such marker the estimated record
and byte counts; the remainder is stored as the open segment's totals. -/
theorem claim_C8_sampling (kRandomSamplesPerStone : Nat)
    (numRecords dataSize estRecordsPerStone estBytesPerStone : Int)
    (samples : List Int) (r : SamplingResult)
    (hk : 0 < kRandomSamplesPerStone) (hn : 0 ≤ numRecords)
    (he : 0 < estRecordsPerStone)
    (hr : calculateStonesBySampling kRandomSamplesPerStone numRecords dataSize
      estRecordsPerStone estBytesPerStone samples = some r) :
    r.stones.length = (Int.tdiv numRecords estRecordsPerStone).toNat ∧
    (∀ i, i < r.stones.length →
      r.stones.getD i ⟨0, 0, 0⟩ =
        { records := estRecordsPerStone, bytes := estBytesPerStone,
          lastRecord := (List.insertionSort (· ≤ ·) (samples.take
            (Int.tdiv ((kRandomSamplesPerStone : Int) * numRecords)
              estRecordsPerStone).toNat)).getD
            (kRandomSamplesPerStone * (i + 1) - 1) 0 } ∧
      kRandomSamplesPerStone * (i + 1) - 1 <
        (List.insertionSort (· ≤ ·) (samples.take
          (Int.tdiv ((kRandomSamplesPerStone : Int) * numRecords)
            estRecordsPerStone).toNat)).length) ∧
    r.currentRecords =
      numRecords - estRecordsPerStone * Int.tdiv numRecords estRecordsPerStone ∧
    r.currentBytes =
      dataSize - estBytesPerStone * Int.tdiv numRecords estRecordsPerStone := by
  simp only [calculateStonesBySampling] at hr
  by_cases hlen : (samples.length : Int) <
      Int.tdiv ((kRandomSamplesPerStone : Int) * numRecords) estRecordsPerStone
  · simp [hlen] at hr
  · rw [if_neg hlen] at hr
    injection hr with hr
    subst hr
    have hws : 0 ≤ Int.tdiv numRecords estRecordsPerStone :=
      Int.tdiv_nonneg hn he.le
    have hns : 0 ≤ Int.tdiv ((kRandomSamplesPerStone : Int) * numRecords)
        estRecordsPerStone := Int.tdiv_nonneg (by positivity) he.le
    have hsortlen : (List.insertionSort (· ≤ ·) (samples.take
        (Int.tdiv ((kRandomSamplesPerStone : Int) * numRecords)
          estRecordsPerStone).toNat)).length =
        (Int.tdiv ((kRandomSamplesPerStone : Int) * numRecords)
          estRecordsPerStone).toNat := by
      rw [List.length_insertionSort, List.length_take]
      have h5 := Int.toNat_le_toNat (not_lt.mp hlen)
      rw [Int.toNat_natCast] at h5
      omega
    refine ⟨by simp, ?_, rfl, rfl⟩
    intro i hi
    simp only [List.length_map, List.length_range] at hi
    have hbound : kRandomSamplesPerStone * (i + 1) - 1 <
        (List.insertionSort (· ≤ ·) (samples.take
          (Int.tdiv ((kRandomSamplesPerStone : Int) * numRecords)
            estRecordsPerStone).toNat)).length := by
      rw [hsortlen]
      have h1 : (kRandomSamplesPerStone : Int) *
          Int.tdiv numRecords estRecordsPerStone ≤
          Int.tdiv ((kRandomSamplesPerStone : Int) * numRecords)
            estRecordsPerStone :=
        tdiv_mul_le_mul_tdiv _ _ _ (by positivity) hn he
      have h2 : kRandomSamplesPerStone *
          (Int.tdiv numRecords estRecordsPerStone).toNat ≤
          (Int.tdiv ((kRandomSamplesPerStone : Int) * numRecords)
            estRecordsPerStone).toNat := by
        have hcast : ((kRandomSamplesPerStone *
            (Int.tdiv numRecords estRecordsPerStone).toNat : Nat) : Int) =
            (kRandomSamplesPerStone : Int) *
              Int.tdiv numRecords estRecordsPerStone := by
          push_cast [Int.toNat_of_nonneg hws]
          ring
        have := Int.toNat_le_toNat h1
        rwa [← hcast, Int.toNat_natCast] at this
      have h3 : kRandomSamplesPerStone * (i + 1) ≤
          kRandomSamplesPerStone *
            (Int.tdiv numRecords estRecordsPerStone).toNat :=
        Nat.mul_le_mul_left _ hi
      have h4 : 1 ≤ kRandomSamplesPerStone * (i + 1) :=
        Nat.one_le_iff_ne_zero.mpr (Nat.mul_ne_zero hk.ne' (Nat.succ_ne_zero i))
      calc kRandomSamplesPerStone * (i + 1) - 1 <
            kRandomSamplesPerStone * (i + 1) := Nat.sub_lt h4 Nat.one_pos
        _ ≤ _ := le_trans h3 h2
    refine ⟨?_, hbound⟩
    rw [List.getD_eq_getElem _ _ (by simpa using hi), List.getElem_map,
      List.getElem_range]

/-- Claim C4: in `cappedDeleteAsNeeded` on a size-capped, non-doc-capped
store (with the slack as set by the constructor,
`min(cappedMaxSize/10, 16MB)`), a thread that fails the non-blocking try-lock
returns 0 and changes nothing whenever `dataSize() - cappedMaxSize` is below
the slack, without any timed wait; otherwise it performs the timed wait that
is bounded by 200 ms, returns 0 unchanged if the lock is still unavailable,
and even after acquiring it returns 0 unchanged unless the re-read overage is
at least twice the slack. -/
theorem claim_C4_capped_delete_backpressure (s : WtStore)
    (justInserted dataSizeAfterWait : Int) (timedLockOk : Bool)
    (hcapped : s.isCapped = true)
    (hdocs : s.cappedMaxDocs = -1)
    (hslack : s.cappedMaxSizeSlack = cappedMaxSizeSlackOf s.cappedMaxSize)
    (hmax : 0 < s.cappedMaxSize) :
    (s.dataSize - s.cappedMaxSize < s.cappedMaxSizeSlack →
      cappedDeleteAsNeeded s justInserted false timedLockOk dataSizeAfterWait =
        ⟨0, s, 0⟩) ∧
    (s.cappedMaxSizeSlack ≤ s.dataSize - s.cappedMaxSize →
      (cappedDeleteAsNeeded s justInserted false timedLockOk
        dataSizeAfterWait).waitBoundMs = 200 ∧
      (timedLockOk = false →
        cappedDeleteAsNeeded s justInserted false timedLockOk dataSizeAfterWait =
          ⟨0, s, 200⟩) ∧
      (dataSizeAfterWait - s.cappedMaxSize < 2 * s.cappedMaxSizeSlack →
        cappedDeleteAsNeeded s justInserted false timedLockOk dataSizeAfterWait =
          ⟨0, s, 200⟩)) := by
  have hslack_nonneg : 0 ≤ s.cappedMaxSizeSlack := by
    rw [hslack, cappedMaxSizeSlackOf]
    exact le_min (Int.tdiv_nonneg hmax.le (by decide)) (by decide)
  constructor
  · intro hlt
    by_cases hneed : cappedAndNeedDelete s = true
    · simp [cappedDeleteAsNeeded, hneed, hdocs, hlt]
    · rw [Bool.not_eq_true] at hneed
      simp [cappedDeleteAsNeeded, hneed]
  · intro hge
    have hneed : cappedAndNeedDelete s = true := by
      have hle : s.cappedMaxSize ≤ s.dataSize := by omega
      simp [cappedAndNeedDelete, hcapped, hle]
    have hnot : ¬(s.dataSize - s.cappedMaxSize < s.cappedMaxSizeSlack) :=
      not_lt.mpr hge
    refine ⟨?_, ?_, ?_⟩
    · cases timedLockOk with
      | false => simp [cappedDeleteAsNeeded, hneed, hdocs, hnot]
      | true =>
        by_cases h2 : dataSizeAfterWait - s.cappedMaxSize < 2 * s.cappedMaxSizeSlack
        · simp [cappedDeleteAsNeeded, hneed, hdocs, hnot, h2]
        · simp [cappedDeleteAsNeeded, hneed, hdocs, hnot, h2]
    · intro ht
      subst ht
      simp [cappedDeleteAsNeeded, hneed, hdocs, hnot]
    · intro h2
      cases timedLockOk with
      | false => simp [cappedDeleteAsNeeded, hneed, hdocs, hnot]
      | true => simp [cappedDeleteAsNeeded, hneed, hdocs, hnot, h2]

/-- Witness for claim C4: a store 5 bytes over a 100-byte cap (slack 10). -/
theorem claim_C4_witness :
    cappedDeleteAsNeeded
      ⟨true, false, false, 100, 10, -1, 4, 3, 105, [(1, [0])], 0⟩ 7 false false 0 =
      ⟨0, ⟨true, false, false, 100, 10, -1, 4, 3, 105, [(1, [0])], 0⟩, 0⟩ :=
  (claim_C4_capped_delete_backpressure
    ⟨true, false, false, 100, 10, -1, 4, 3, 105, [(1, [0])], 0⟩ 7 0 false
    rfl rfl (by decide) (by decide)).1 (by decide)

/-- Byte total of one more record. -/
theorem totalSize_cons (r : Int × List Nat) (l : List (Int × List Nat)) :
    totalSize (r :: l) = (r.2.length : Int) + totalSize l := by
  simp [totalSize]

/-- Invariant of the capped-deletion walk: every accumulated record was taken
while the loop condition still held with the accumulators of the records
before it, and lies strictly before the just-inserted record. -/
theorem cappedWalk_spec (justInserted sizeOverCap docsOverCap : Int)
    (l : List (Int × List Nat)) (docsRemoved sizeSaved : Int) (i : Nat)
    (hi : i < (cappedWalk justInserted sizeOverCap docsOverCap l
      docsRemoved sizeSaved).length) :
    ((cappedWalk justInserted sizeOverCap docsOverCap l docsRemoved
        sizeSaved).getD i (0, [])).1 < justInserted ∧
    (sizeSaved + totalSize ((cappedWalk justInserted sizeOverCap docsOverCap l
        docsRemoved sizeSaved).take i) < sizeOverCap ∨
      docsRemoved + i < docsOverCap) ∧
    docsRemoved + i < 20000 := by
  induction l generalizing docsRemoved sizeSaved i with
  | nil => simp [cappedWalk] at hi
  | cons r rest ih =>
    rw [cappedWalk] at hi ⊢
    by_cases hcond : (sizeSaved < sizeOverCap ∨ docsRemoved < docsOverCap) ∧
        docsRemoved < 20000
    · rw [if_pos hcond] at hi ⊢
      by_cases hpast : justInserted ≤ r.1
      · rw [if_pos hpast] at hi
        simp at hi
      · rw [if_neg hpast] at hi ⊢
        cases i with
        | zero =>
          refine ⟨by simpa using not_le.mp hpast, ?_, ?_⟩
          · rcases hcond.1 with h | h
            · left
              simpa [totalSize] using h
            · right
              simpa using h
          · simpa using hcond.2
        | succ j =>
          have hj : j < (cappedWalk justInserted sizeOverCap docsOverCap rest
              (docsRemoved + 1) (sizeSaved + (r.2.length : Int))).length := by
            simpa using hi
          have ihj := ih (docsRemoved + 1) (sizeSaved + (r.2.length : Int)) j hj
          refine ⟨by simpa using ihj.1, ?_, ?_⟩
          · rcases ihj.2.1 with h | h
            · left
              rw [List.take_succ_cons, totalSize_cons]
              linarith
            · right
              push_cast
              linarith
          · have := ihj.2.2
            push_cast
            push_cast at this
            linarith
    · rw [if_neg hcond] at hi
      simp at hi

/-- Claim C5: for every run of the capped deletion walk in
`cappedDeleteAsNeeded_inlock`, the forward walk from the remembered oldest
surviving record only accumulates a record while the removed bytes so far do
not yet cover the size overage or the removed count does not yet cover the doc
overage, and while fewer than 20000 documents are accumulated, and never a
record whose id is at or past the just-inserted one — so the just-inserted
record is never among the removed records. -/
theorem claim_C5_capped_walk_stops (s : WtStore) (justInserted : Int) :
    (∀ r ∈ cappedDeleteRemoved s justInserted, r.1 < justInserted) ∧
    (∀ i, i < (cappedDeleteRemoved s justInserted).length →
      ((cappedDeleteRemoved s justInserted).getD i (0, [])).1 < justInserted ∧
      (totalSize ((cappedDeleteRemoved s justInserted).take i) < sizeOverCapOf s ∨
        (i : Int) < docsOverCapOf s) ∧
      (i : Int) < 20000) := by
  have hmain : ∀ i, i < (cappedDeleteRemoved s justInserted).length →
      ((cappedDeleteRemoved s justInserted).getD i (0, [])).1 < justInserted ∧
      (totalSize ((cappedDeleteRemoved s justInserted).take i) < sizeOverCapOf s ∨
        (i : Int) < docsOverCapOf s) ∧
      (i : Int) < 20000 := by
    intro i hi
    have h := cappedWalk_spec justInserted (sizeOverCapOf s) (docsOverCapOf s)
      (cappedStartList s.records s.cappedFirstRecord) 0 0 i
      (by simpa [cappedDeleteRemoved] using hi)
    constructor
    · simpa [cappedDeleteRemoved] using h.1
    constructor
    · rcases h.2.1 with h2 | h2
      · left
        simpa [cappedDeleteRemoved] using h2
      · right
        simpa using h2
    · simpa using h.2.2
  refine ⟨?_, hmain⟩
  intro r hr
  obtain ⟨i, hi, hget⟩ := List.getElem_of_mem hr
  have := (hmain i hi).1
  rwa [List.getD_eq_getElem _ _ hi, hget] at this

/-- Witness for claim C5: a walk over three records that stops after covering
a 5-byte overage with two records. -/
theorem claim_C5_witness :
    (1, ([0, 0, 0] : List Nat)).1 < (3 : Int) :=
  (claim_C5_capped_walk_stops
    ⟨true, false, false, 5, 0, -1, 4, 3, 10,
      [(1, [0, 0, 0]), (2, [0, 0, 0]), (3, [0, 0, 0, 0])], 0⟩ 3).1
    (1, [0, 0, 0]) (by decide)

/-- Claim C3: for a store with oplog stones (the log), `updateRecord` with a
new length different from the stored record's length fails with the typed
`IllegalOperation` error and leaves the record and the store's counters
unchanged; for a store without oplog stones the same call is permitted to
change the record's length and adjusts `dataSize()` by exactly the length
difference (the trailing `cappedDeleteAsNeeded` trigger removes nothing when
the store is not over its cap). -/
theorem claim_C3_update_record (s : WtStore) (id : Int) (old data : List Nat)
    (tryLockOk timedLockOk : Bool) (dataSizeAfterWait : Int)
    (hfind : s.records.find? (fun r => r.1 = id) = some (id, old))
    (hds : 0 ≤ s.dataSize) :
    (s.hasOplogStones = true → (data.length : Int) ≠ (old.length : Int) →
      updateRecord s id data tryLockOk timedLockOk dataSizeAfterWait =
        (s, some WtErr.illegalOperation)) ∧
    (s.hasOplogStones = false →
      cappedAndNeedDelete
        { s with
          records := s.records.map (fun q => if q.1 = id then (q.1, data) else q)
          dataSize := s.dataSize + ((data.length : Int) - (old.length : Int)) } =
        false →
      updateRecord s id data tryLockOk timedLockOk dataSizeAfterWait =
        ({ s with
           records := s.records.map (fun q => if q.1 = id then (q.1, data) else q)
           dataSize := s.dataSize + ((data.length : Int) - (old.length : Int)) },
         none)) := by
  have hsize : increaseDataSize s.dataSize
      ((data.length : Int) - (old.length : Int)) =
      s.dataSize + ((data.length : Int) - (old.length : Int)) := by
    rw [increaseDataSize, if_neg (by omega)]
  constructor
  · intro hlog hne
    simp only [updateRecord, hfind]
    rw [if_pos ⟨hlog, hne⟩]
  · intro hlog hno
    rw [hlog] at hno
    simp only [updateRecord, hfind, hlog, hsize]
    rw [if_neg (by simp)]
    simp [cappedDeleteAsNeeded, hno]

/-- Witness for claim C3: resizing a 2-byte oplog record to 3 bytes. -/
theorem claim_C3_witness :
    updateRecord ⟨true, true, true, 100, 10, -1, 1, 1, 2, [(5, [1, 2])], 0⟩
      5 [1, 2, 3] true true 0 =
      (⟨true, true, true, 100, 10, -1, 1, 1, 2, [(5, [1, 2])], 0⟩,
        some WtErr.illegalOperation) :=
  (claim_C3_update_record ⟨true, true, true, 100, 10, -1, 1, 1, 2, [(5, [1, 2])], 0⟩
    5 [1, 2] [1, 2, 3] true true 0 (by decide) (by decide)).1 rfl (by decide)

/-- Claim C10: for a capped store and an insert batch whose records' total
byte length exceeds `cappedMaxSize`, `insertRecords` returns the `BadValue`
error before assigning any record id or writing any record, leaving the
store's contents, its id counter, and its count/size counters unchanged. -/
theorem claim_C10_capped_batch_too_large
    (extractOplogKey : List Nat → Option Int) (s : WtStore)
    (datas : List (List Nat)) (tryLockOk timedLockOk : Bool)
    (dataSizeAfterWait : Int)
    (hcap : s.isCapped = true)
    (hover : s.cappedMaxSize < (datas.map (fun d => (d.length : Int))).sum) :
    insertRecords extractOplogKey s datas tryLockOk timedLockOk
      dataSizeAfterWait = (s, .error .badValue) := by
  simp [insertRecords, hcap, hover]

/-- Witness for claim C10: a 4-byte batch against a 3-byte cap. -/
theorem claim_C10_witness :
    insertRecords (fun _ => none)
      ⟨true, false, false, 3, 0, -1, 1, 0, 0, [], 0⟩
      [[0, 0], [0, 0]] true true 0 =
      (⟨true, false, false, 3, 0, -1, 1, 0, 0, [], 0⟩,
        .error WtErr.badValue) :=
  claim_C10_capped_batch_too_large (fun _ => none)
    ⟨true, false, false, 3, 0, -1, 1, 0, 0, [], 0⟩
    [[0, 0], [0, 0]] true true 0 rfl (by decide)

/-- Witness for claim C8: 4 records of 450 total bytes, 2 estimated records
(100 bytes) per stone, 10 samples per stone, drawing the ids 20 down to 1. -/
theorem claim_C8_witness :
    (SamplingResult.mk [⟨2, 100, 10⟩, ⟨2, 100, 20⟩] 0 250).stones.length =
      (Int.tdiv 4 2).toNat :=
  (claim_C8_sampling 10 4 450 2 100
    [20, 19, 18, 17, 16, 15, 14, 13, 12, 11, 10, 9, 8, 7, 6, 5, 4, 3, 2, 1]
    ⟨[⟨2, 100, 10⟩, ⟨2, 100, 20⟩], 0, 250⟩
    (by decide) (by decide) (by decide) (by decide)).1

/-- Witness for claim C7 with the real `BSONObjMaxInternalSize` (16MB + 16KB)
and a 800MB-class oplog size. -/
theorem claim_C7_witness :
    ((OplogStonesParams.mk 50 16793600).numStonesToKeep =
        min 100 (max 10 (839680000 / 16793600)) ∧
      (OplogStonesParams.mk 50 16793600).minBytesPerStone =
        839680000 / (OplogStonesParams.mk 50 16793600).numStonesToKeep ∧
      0 < (OplogStonesParams.mk 50 16793600).minBytesPerStone) :=
  (claim_C7_stone_params 16793600).1 839680000 ⟨50, 16793600⟩ (by decide)

/-- Id assignment for a non-oplog store: the returned ids are strictly
increasing, lie in `[nextId, n')`, and the counter only moves forward. -/
theorem assignRecordIds_ids (ek : List Nat → Option Int)
    (datas : List (List Nat)) (nextId : Int) (ids : List Int) (n' : Int)
    (h : assignRecordIds ek false nextId datas = some (ids, n')) :
    nextId ≤ n' ∧ ids.Pairwise (· < ·) ∧ ∀ a ∈ ids, nextId ≤ a ∧ a < n' := by
  induction datas generalizing nextId ids with
  | nil =>
    rw [assignRecordIds] at h
    simp only [Option.some.injEq, Prod.mk.injEq] at h
    obtain ⟨h1, h2⟩ := h
    subst h1
    subst h2
    simp
  | cons dta rest ih =>
    rw [assignRecordIds] at h
    simp only [Bool.false_eq_true, if_false] at h
    cases hrec : assignRecordIds ek false (nextId + 1) rest with
    | none => rw [hrec] at h; exact absurd h (by simp)
    | some p =>
      obtain ⟨ids', n''⟩ := p
      rw [hrec] at h
      simp only [Option.some.injEq, Prod.mk.injEq] at h
      obtain ⟨h1, h2⟩ := h
      subst h1
      subst h2
      obtain ⟨hle, hpw, hmem⟩ := ih (nextId + 1) ids' hrec
      refine ⟨by omega, ?_, ?_⟩
      · exact List.pairwise_cons.mpr
          ⟨fun a ha => by have := (hmem a ha).1; omega, hpw⟩
      · intro a ha
        rcases List.mem_cons.mp ha with rfl | ha
        · exact ⟨le_refl _, by omega⟩
        · have := hmem a ha
          exact ⟨by omega, this.2⟩

/-- `cappedDeleteAsNeeded_inlock` never touches the id counter or the
store-kind flags. -/
theorem cappedDeleteAsNeeded_inlock_counter (s : WtStore) (ji : Int) :
    (cappedDeleteAsNeeded_inlock s ji).2.nextIdNum = s.nextIdNum ∧
    (cappedDeleteAsNeeded_inlock s ji).2.isOplog = s.isOplog := by
  rw [cappedDeleteAsNeeded_inlock]
  by_cases h : (cappedDeleteRemoved s ji).length = 0 <;> simp [h]

/-- `cappedDeleteAsNeeded` never touches the id counter or the store-kind
flags. -/
theorem cappedDeleteAsNeeded_counter (s : WtStore) (ji : Int) (a b : Bool)
    (d : Int) :
    (cappedDeleteAsNeeded s ji a b d).store.nextIdNum = s.nextIdNum ∧
    (cappedDeleteAsNeeded s ji a b d).store.isOplog = s.isOplog := by
  have h1 := cappedDeleteAsNeeded_inlock_counter s ji
  rw [cappedDeleteAsNeeded]
  split_ifs <;> simp [h1.1, h1.2]

/-- `insertRecords` on a non-oplog store: the id counter only moves forward,
the flags are preserved, a committed batch's ids are strictly increasing and
bounded by the counter movement, and a rejected batch leaves the store
untouched. -/
theorem insertRecords_ids (ek : List Nat → Option Int) (s : WtStore)
    (datas : List (List Nat)) (a b : Bool) (d : Int)
    (hop : s.isOplog = false) :
    (insertRecords ek s datas a b d).1.isOplog = false ∧
    s.nextIdNum ≤ (insertRecords ek s datas a b d).1.nextIdNum ∧
    (∀ ids, (insertRecords ek s datas a b d).2 = .ok ids →
      ids.Pairwise (· < ·) ∧
      ∀ x ∈ ids, s.nextIdNum ≤ x ∧
        x < (insertRecords ek s datas a b d).1.nextIdNum) ∧
    (∀ e, (insertRecords ek s datas a b d).2 = .error e →
      (insertRecords ek s datas a b d).1 = s) := by
  by_cases hcap : s.isCapped = true ∧
      s.cappedMaxSize < (datas.map (fun dd => (dd.length : Int))).sum
  · have hres : insertRecords ek s datas a b d = (s, .error .badValue) := by
      simp only [insertRecords]
      rw [if_pos hcap]
    rw [hres]
    refine ⟨hop, le_refl _, ?_, fun e _ => rfl⟩
    intro ids hids
    simp at hids
  · cases hass : assignRecordIds ek false s.nextIdNum datas with
    | none =>
      have hres : insertRecords ek s datas a b d = (s, .error .badValue) := by
        simp [insertRecords, if_neg hcap, hop, hass]
      rw [hres]
      refine ⟨hop, le_refl _, ?_, fun e _ => rfl⟩
      intro ids hids
      simp at hids
    | some p =>
      obtain ⟨ids0, n'⟩ := p
      obtain ⟨hle, hpw, hmem⟩ :=
        assignRecordIds_ids ek datas s.nextIdNum ids0 n' hass
      by_cases hst : s.hasOplogStones = true
      · refine ⟨?_, ?_, ?_, ?_⟩ <;>
          simp only [insertRecords, if_neg hcap, hop, hass, hst, if_true]
        · exact hle
        · intro ids hids
          injection hids with hids
          subst hids
          exact ⟨hpw, hmem⟩
        · intro e he
          exact absurd he (by simp)
      · rw [Bool.not_eq_true] at hst
        refine ⟨?_, ?_, ?_, ?_⟩ <;>
          simp only [insertRecords, if_neg hcap, hop, hass, hst,
            Bool.false_eq_true, if_false]
        · rw [(cappedDeleteAsNeeded_counter _ _ a b d).2]
        · rw [(cappedDeleteAsNeeded_counter _ _ a b d).1]
          exact hle
        · intro ids hids
          injection hids with hids
          subst hids
          refine ⟨hpw, ?_⟩
          intro x hx
          rw [(cappedDeleteAsNeeded_counter _ _ a b d).1]
          exact hmem x hx
        · intro e he
          exact absurd he (by simp)

/-- Running a sequence of insert attempts against a non-oplog store yields a
strictly increasing stream of committed ids, bracketed by the id counter. -/
theorem runInsOps_ids (ek : List Nat → Option Int) (a b : Bool) (d : Int)
    (ops : List InsOp) (s : WtStore) (hop : s.isOplog = false) :
    (runInsOps ek a b d s ops).1.isOplog = false ∧
    s.nextIdNum ≤ (runInsOps ek a b d s ops).1.nextIdNum ∧
    (runInsOps ek a b d s ops).2.Pairwise (· < ·) ∧
    ∀ x ∈ (runInsOps ek a b d s ops).2,
      s.nextIdNum ≤ x ∧ x < (runInsOps ek a b d s ops).1.nextIdNum := by
  induction ops generalizing s with
  | nil => simp [runInsOps, hop]
  | cons op ops ih =>
    cases op with
    | committed datas =>
      obtain ⟨hfl, hcle, hok, herr⟩ := insertRecords_ids ek s datas a b d hop
      obtain ⟨ihfl, ihle, ihpw, ihmem⟩ :=
        ih (insertRecords ek s datas a b d).1 hfl
      have hids1 : ∀ x ∈ (runInsOp ek a b d s (.committed datas)).2,
          s.nextIdNum ≤ x ∧ x < (insertRecords ek s datas a b d).1.nextIdNum := by
        intro x hx
        rw [runInsOp] at hx
        cases hres : (insertRecords ek s datas a b d).2 with
        | ok ids =>
          rw [hres] at hx
          exact (hok ids hres).2 x hx
        | error e =>
          rw [hres] at hx
          simp at hx
      have hpw1 : (runInsOp ek a b d s (.committed datas)).2.Pairwise (· < ·) := by
        rw [runInsOp]
        cases hres : (insertRecords ek s datas a b d).2 with
        | ok ids => exact (hok ids hres).1
        | error e => simp
      have hstore1 : (runInsOp ek a b d s (.committed datas)).1 =
          (insertRecords ek s datas a b d).1 := rfl
      rw [runInsOps, hstore1]
      refine ⟨ihfl, le_trans hcle ihle, ?_, ?_⟩
      · refine List.pairwise_append.mpr ⟨hpw1, ihpw, ?_⟩
        intro x hx y hy
        exact lt_of_lt_of_le (hids1 x hx).2 (ihmem y hy).1
      · intro x hx
        rcases List.mem_append.mp hx with hx | hx
        · exact ⟨(hids1 x hx).1,
            lt_of_lt_of_le (hids1 x hx).2 ihle⟩
        · exact ⟨le_trans hcle (ihmem x hx).1, (ihmem x hx).2⟩
    | aborted n =>
      obtain ⟨ihfl, ihle, ihpw, ihmem⟩ :=
        ih { s with nextIdNum := s.nextIdNum + (n : Int) } (by simpa using hop)
      rw [runInsOps]
      refine ⟨ihfl, ?_, by simpa [runInsOp] using ihpw, ?_⟩
      · simp only [runInsOp]
        have h0 : (0 : Int) ≤ (n : Int) := Int.natCast_nonneg n
        calc s.nextIdNum ≤ s.nextIdNum + (n : Int) := by omega
          _ ≤ _ := ihle
      · intro x hx
        simp only [runInsOp, List.nil_append] at hx
        have := ihmem x hx
        simp only at this
        exact ⟨by omega, this.2⟩

/-- Claim C2: for every sequence of committed inserts into one non-log store,
the record ids assigned by the store's counter are strictly increasing,
including across interleavings with aborted insert attempts; and inserting 5
single-record batches into an initially empty ordinary store assigns ids
1 through 5 and leaves `numRecords()` equal to 5. -/
theorem claim_C2_monotonic_ids :
    (∀ (extractOplogKey : List Nat → Option Int) (tryLockOk timedLockOk : Bool)
      (dataSizeAfterWait : Int) (s : WtStore) (ops : List InsOp),
      s.isOplog = false →
      (runInsOps extractOplogKey tryLockOk timedLockOk dataSizeAfterWait s
        ops).2.Pairwise (· < ·)) ∧
    (runInsOps (fun _ => none) true true 0 emptyOrdinaryStore
      (List.replicate 5 (.committed [[0]]))).2 = [1, 2, 3, 4, 5] ∧
    (runInsOps (fun _ => none) true true 0 emptyOrdinaryStore
      (List.replicate 5 (.committed [[0]]))).1.numRecords = 5 := by
  refine ⟨?_, by decide, by decide⟩
  intro ek a b d s ops hop
  exact (runInsOps_ids ek a b d ops s hop).2.2.1

/-- Witness for claim C2: a commit, an aborted attempt burning four ids, and
another commit still produce strictly increasing committed ids. -/
theorem claim_C2_witness :
    (runInsOps (fun _ => none) true false 7
      ⟨false, false, false, -1, 0, -1, 3, 2, 9, [(1, [0]), (2, [0])], 0⟩
      [.committed [[5, 5]], .aborted 4, .committed [[6]]]).2.Pairwise
      (· < ·) :=
  claim_C2_monotonic_ids.1 (fun _ => none) true false 7
    ⟨false, false, false, -1, 0, -1, 3, 2, 9, [(1, [0]), (2, [0])], 0⟩
    [.committed [[5, 5]], .aborted 4, .committed [[6]]] rfl

/-- The head of a strictly sorted list is its minimum. -/
theorem pairwise_head_le (l : List Int) (hpw : l.Pairwise (· < ·)) (a : Int)
    (h : l.head? = some a) : ∀ x ∈ l, a ≤ x := by
  obtain ⟨ys, rfl⟩ := List.head?_eq_some_iff.mp h
  intro x hx
  rcases List.mem_cons.mp hx with rfl | hx
  · exact le_refl x
  · exact ((List.pairwise_cons.mp hpw).1 x hx).le

/-- The last element of a strictly sorted list is its maximum. -/
theorem pairwise_getLast_ge (l : List Int) (hpw : l.Pairwise (· < ·)) (a : Int)
    (h : l.getLast? = some a) : ∀ x ∈ l, x ≤ a := by
  obtain ⟨ys, rfl⟩ := List.getLast?_eq_some_iff.mp h
  intro x hx
  rcases List.mem_append.mp hx with hx | hx
  · exact ((List.pairwise_append.mp hpw).2.2 x hx a (by simp)).le
  · simp only [List.mem_singleton] at hx
    subst hx
    exact le_refl _

/-- A `firstGreater` result is a table key strictly past the position. -/
theorem firstGreater_mem (ids : List Int) (p a : Int)
    (h : firstGreater ids p = some a) : a ∈ ids ∧ p < a := by
  rw [firstGreater] at h
  obtain ⟨ys, hys⟩ := List.head?_eq_some_iff.mp h
  have ha : a ∈ ids.filter (fun x => decide (p < x)) := by
    rw [hys]
    simp
  exact ⟨List.mem_of_mem_filter ha, by simpa using List.of_mem_filter ha⟩

/-- A `lastSmaller` result is a table key strictly before the position. -/
theorem lastSmaller_mem (ids : List Int) (p a : Int)
    (h : lastSmaller ids p = some a) : a ∈ ids ∧ a < p := by
  rw [lastSmaller] at h
  obtain ⟨ys, hys⟩ := List.getLast?_eq_some_iff.mp h
  have ha : a ∈ ids.filter (fun x => decide (x < p)) := by
    rw [hys]
    simp
  exact ⟨List.mem_of_mem_filter ha, by simpa using List.of_mem_filter ha⟩

/-- Advancing forward from the nearest surviving key before a vanished key
reaches the same record as advancing forward from the vanished key itself. -/
theorem firstGreater_after_lastSmaller (ids : List Int) (key a : Int)
    (hpw : ids.Pairwise (· < ·)) (hnot : key ∉ ids)
    (h : lastSmaller ids key = some a) :
    firstGreater ids a = firstGreater ids key := by
  have hmem := lastSmaller_mem ids key a h
  have hmax : ∀ x ∈ ids, x < key → x ≤ a := by
    intro x hx hxk
    exact pairwise_getLast_ge _ (List.Pairwise.filter _ hpw) a h x
      (List.mem_filter.mpr ⟨hx, by simpa using hxk⟩)
  have hpred : ∀ x ∈ ids, decide (a < x) = decide (key < x) := by
    intro x hx
    apply decide_eq_decide.mpr
    constructor
    · intro hax
      by_contra hkx
      push_neg at hkx
      have hxk : x < key := lt_of_le_of_ne hkx fun he => hnot (he ▸ hx)
      exact absurd (hmax x hx hxk) (not_le.mpr hax)
    · intro hkx
      exact lt_trans hmem.2 hkx
  rw [firstGreater, firstGreater, List.filter_congr hpred]

/-- Backing up from the nearest surviving key after a vanished key reaches the
same record as backing up from the vanished key itself. -/
theorem lastSmaller_after_firstGreater (ids : List Int) (key a : Int)
    (hpw : ids.Pairwise (· < ·)) (hnot : key ∉ ids)
    (h : firstGreater ids key = some a) :
    lastSmaller ids a = lastSmaller ids key := by
  have hmem := firstGreater_mem ids key a h
  have hmin : ∀ x ∈ ids, key < x → a ≤ x := by
    intro x hx hkx
    exact pairwise_head_le _ (List.Pairwise.filter _ hpw) a h x
      (List.mem_filter.mpr ⟨hx, by simpa using hkx⟩)
  have hpred : ∀ x ∈ ids, decide (x < a) = decide (x < key) := by
    intro x hx
    apply decide_eq_decide.mpr
    constructor
    · intro hxa
      by_contra hxk
      push_neg at hxk
      have hkx : key < x := lt_of_le_of_ne hxk fun he => hnot (he.symm ▸ hx)
      exact absurd (hmin x hx hkx) (not_le.mpr hxa)
    · intro hxk
      exact lt_trans hxk hmem.2
  rw [lastSmaller, lastSmaller, List.filter_congr hpred]

/-- A successful `search_near` lands on a table key. -/
theorem searchNear_some_mem (ids : List Int) (key : Int) (pref : Bool)
    (a : Int) (h : searchNear ids key pref = some a) : a ∈ ids := by
  rw [searchNear] at h
  by_cases hk : key ∈ ids
  · rw [if_pos hk] at h
    injection h with h
    exact h ▸ hk
  · rw [if_neg hk] at h
    cases pref with
    | true =>
      rw [if_pos rfl] at h
      cases hfg : firstGreater ids key with
      | some x =>
        rw [hfg] at h
        injection h with h
        exact h ▸ (firstGreater_mem ids key x hfg).1
      | none =>
        rw [hfg] at h
        exact (lastSmaller_mem ids key a h).1
    | false =>
      rw [if_neg (by simp)] at h
      cases hls : lastSmaller ids key with
      | some x =>
        rw [hls] at h
        injection h with h
        exact h ▸ (lastSmaller_mem ids key x hls).1
      | none =>
        rw [hls] at h
        exact (firstGreater_mem ids key a h).1

/-- When the sought key vanished, `search_near` lands on the nearest
surviving key on one side. -/
theorem searchNear_cases (ids : List Int) (key : Int) (pref : Bool) (a : Int)
    (hnot : key ∉ ids) (h : searchNear ids key pref = some a) :
    (lastSmaller ids key = some a ∧ a < key) ∨
    (firstGreater ids key = some a ∧ key < a) := by
  rw [searchNear, if_neg hnot] at h
  cases pref with
  | true =>
    rw [if_pos rfl] at h
    cases hfg : firstGreater ids key with
    | some x =>
      rw [hfg] at h
      injection h with h
      right
      refine ⟨congrArg some h, ?_⟩
      have hx := (firstGreater_mem ids key x hfg).2
      omega
    | none =>
      rw [hfg] at h
      exact Or.inl ⟨h, (lastSmaller_mem ids key a h).2⟩
  | false =>
    rw [if_neg (by simp)] at h
    cases hls : lastSmaller ids key with
    | some x =>
      rw [hls] at h
      injection h with h
      left
      refine ⟨congrArg some h, ?_⟩
      have hx := (lastSmaller_mem ids key x hls).2
      omega
    | none =>
      rw [hls] at h
      exact Or.inr ⟨h, (firstGreater_mem ids key a h).2⟩

/-- When `search_near` finds nothing the table has no key on either side. -/
theorem searchNear_none_both (ids : List Int) (key : Int) (pref : Bool)
    (h : searchNear ids key pref = none) :
    firstGreater ids key = none ∧ lastSmaller ids key = none := by
  rw [searchNear] at h
  by_cases hk : key ∈ ids
  · rw [if_pos hk] at h
    exact absurd h (by simp)
  · rw [if_neg hk] at h
    cases pref with
    | true =>
      rw [if_pos rfl] at h
      cases hfg : firstGreater ids key with
      | some x => rw [hfg] at h; exact absurd h (by simp)
      | none => rw [hfg] at h; exact ⟨rfl, h⟩
    | false =>
      rw [if_neg (by simp)] at h
      cases hls : lastSmaller ids key with
      | some x => rw [hls] at h; exact absurd h (by simp)
      | none => rw [hls] at h; exact ⟨h, rfl⟩

/-- Claim C9: for a cursor whose remembered last-returned position no longer
exists at `restore()` time, on a capped store (the log included) `restore()`
marks the cursor permanently exhausted and returns false rather than silently
skipping, while on an ordinary store `restore()` returns true and the cursor
transparently resumes at the nearest surviving key in its traversal
direction — the next `next()` returns exactly the nearest surviving id past
(forward) or before (backward) the vanished position. -/
theorem claim_C9_cursor_restore (ids : List Int) (c : WtCursor)
    (preferLarger : Bool) (hpw : ids.Pairwise (· < ·))
    (hvan : c.lastReturnedId ∉ ids) (hnorm : c.lastReturnedId ≠ 0)
    (heof : c.eof = false) :
    ((cursorRestore ids true preferLarger c).2 = false ∧
     (cursorRestore ids true preferLarger c).1.eof = true ∧
     (cursorNext ids (cursorRestore ids true preferLarger c).1).1 = none) ∧
    ((cursorRestore ids false preferLarger c).2 = true ∧
     (cursorNext ids (cursorRestore ids false preferLarger c).1).1 =
       (if c.forward = true then firstGreater ids c.lastReturnedId
        else lastSmaller ids c.lastReturnedId)) := by
  constructor
  · cases hsn : searchNear ids c.lastReturnedId preferLarger with
    | none =>
      refine ⟨?_, ?_, ?_⟩ <;>
        simp [cursorRestore, cursorNext, heof, hnorm, hsn]
    | some landed =>
      have hne : landed ≠ c.lastReturnedId := fun he =>
        hvan (he ▸ searchNear_some_mem ids _ _ _ hsn)
      refine ⟨?_, ?_, ?_⟩ <;>
        simp [cursorRestore, cursorNext, heof, hnorm, hsn, hne]
  · cases hsn : searchNear ids c.lastReturnedId preferLarger with
    | none =>
      obtain ⟨hfg, hls⟩ := searchNear_none_both ids _ preferLarger hsn
      refine ⟨?_, ?_⟩
      · simp [cursorRestore, heof, hnorm, hsn]
      · cases hf : c.forward <;>
          simp [cursorRestore, cursorNext, heof, hnorm, hsn, hfg, hls]
    | some landed =>
      have hmemL := searchNear_some_mem ids _ _ _ hsn
      have hne : landed ≠ c.lastReturnedId := fun he => hvan (he ▸ hmemL)
      rcases searchNear_cases ids _ preferLarger landed hvan hsn with
        ⟨hls, hlt⟩ | ⟨hfg, hgt⟩
      · cases hf : c.forward with
        | true =>
          have hcongr :=
            firstGreater_after_lastSmaller ids c.lastReturnedId landed hpw hvan hls
          refine ⟨?_, ?_⟩
          · simp [cursorRestore, heof, hnorm, hsn, hne, hf, not_lt.mpr hlt.le]
          · rw [if_pos rfl, ← hcongr]
            cases hval : firstGreater ids landed with
            | none =>
              simp [cursorRestore, cursorNext, heof, hnorm, hsn, hne, hf,
                not_lt.mpr hlt.le, hval]
            | some v =>
              simp [cursorRestore, cursorNext, heof, hnorm, hsn, hne, hf,
                not_lt.mpr hlt.le, hval]
        | false =>
          refine ⟨?_, ?_⟩
          · simp [cursorRestore, heof, hnorm, hsn, hne, hf, hlt]
          · rw [if_neg (by simp)]
            simp [cursorRestore, cursorNext, heof, hnorm, hsn, hne, hf, hlt,
              hls]
      · cases hf : c.forward with
        | true =>
          refine ⟨?_, ?_⟩
          · simp [cursorRestore, heof, hnorm, hsn, hne, hf, hgt]
          · rw [if_pos rfl]
            simp [cursorRestore, cursorNext, heof, hnorm, hsn, hne, hf, hgt,
              hfg]
        | false =>
          have hcongr :=
            lastSmaller_after_firstGreater ids c.lastReturnedId landed hpw hvan hfg
          refine ⟨?_, ?_⟩
          · simp [cursorRestore, heof, hnorm, hsn, hne, hf, not_lt.mpr hgt.le]
          · rw [if_neg (by simp), ← hcongr]
            cases hval : lastSmaller ids landed with
            | none =>
              simp [cursorRestore, cursorNext, heof, hnorm, hsn, hne, hf,
                not_lt.mpr hgt.le, hval]
            | some v =>
              simp [cursorRestore, cursorNext, heof, hnorm, hsn, hne, hf,
                not_lt.mpr hgt.le, hval]

/-- Witness for claim C9: a forward cursor remembering the vanished id 2 in a
table holding ids 1 and 3. -/
theorem claim_C9_witness :
    ((cursorRestore [1, 3] true true ⟨true, 2, false, false, none⟩).2 = false ∧
     (cursorRestore [1, 3] true true ⟨true, 2, false, false, none⟩).1.eof = true ∧
     (cursorNext [1, 3]
       (cursorRestore [1, 3] true true ⟨true, 2, false, false, none⟩).1).1 =
       none) ∧
    ((cursorRestore [1, 3] false true ⟨true, 2, false, false, none⟩).2 = true ∧
     (cursorNext [1, 3]
       (cursorRestore [1, 3] false true ⟨true, 2, false, false, none⟩).1).1 =
       (if (WtCursor.mk true 2 false false none).forward = true
        then firstGreater [1, 3] 2 else lastSmaller [1, 3] 2)) :=
  claim_C9_cursor_restore [1, 3] ⟨true, 2, false, false, none⟩ true
    (by decide) (by decide) (by decide) rfl

end WT
